import Mathlib

/-!
Shallow embedding of the dwarffi core (the crate rooted at src/src) for
verification: the content-addressed type registry (src/src/type_registry.rs),
the type resolver (src/src/type_resolver.rs), the signature rendering
(src/src/types.rs) and the function extractor (src/src/dwarf_analyzer.rs).

Modelling conventions:
- Rust machine integers (u64, usize, i64) are modelled as Nat / Int; none of
  the embedded code paths can overflow them on the inputs considered.
- Rust HashMap is modelled as an association list with duplicate-free keys
  maintained by the operations; lookup finds the first matching key.
- compute_type_id serializes the canonical form with bincode fixint (an
  injective encoding) and compresses the bytes with a 64-bit hasher.  The
  spec treats the digest as collision-free, so the digest is modelled as the
  serialized canonical form itself: TypeId carries exactly the tokens that
  are hashed.
-/

namespace Dwarffi

/-- Association list lookup: first entry whose key matches, as HashMap get. -/
def alookup {κ ν : Type} [DecidableEq κ] (k : κ) : List (κ × ν) → Option ν
  | [] => none
  | (k', v) :: rest => if k' = k then some v else alookup k rest

/-- HashMap insert: replace the value at an existing key (keeping the stored
key, as Rust HashMap::insert does), else append a fresh entry. -/
def ainsert {κ ν : Type} [DecidableEq κ] (k : κ) (v : ν) : List (κ × ν) → List (κ × ν)
  | [] => [(k, v)]
  | (k', v') :: rest => if k' = k then (k', v) :: rest else (k', v') :: ainsert k v rest

/-- HashMap entry(k).or_insert(v): keep the map unchanged when the key is
present, append the entry otherwise. -/
def ainsertIfAbsent {κ ν : Type} [DecidableEq κ] (k : κ) (v : ν) (m : List (κ × ν)) :
    List (κ × ν) :=
  if (alookup k m).isSome then m else m ++ [(k, v)]

/-- HashMap entry(k) followed by an in-place modification of the value: the
first entry with key k is rewritten through f (receiving some of the old
value), and a missing key appends (k, f none). -/
def aupdate {κ ν : Type} [DecidableEq κ] (k : κ) (f : Option ν → ν) :
    List (κ × ν) → List (κ × ν)
  | [] => [(k, f none)]
  | (k', v) :: rest => if k' = k then (k', f (some v)) :: rest else (k', v) :: aupdate k f rest

/-- Lexicographic comparison of character-code lists, structurally recursive
so that the kernel can evaluate it.  The source sorts by Rust String cmp,
which is bytewise lexicographic on UTF-8; UTF-8 byte order coincides with
codepoint order, so this relation orders names exactly as the source does. -/
def lexLe : List Char → List Char → Bool
  | [], _ => true
  | _ :: _, [] => false
  | a :: as, b :: bs => if a < b then true else if b < a then false else lexLe as bs

theorem lexLe_total : ∀ a b, lexLe a b = true ∨ lexLe b a = true
  | [], _ => .inl rfl
  | _ :: _, [] => .inr rfl
  | a :: as, b :: bs => by
    rcases lt_trichotomy a b with h | h | h
    · left
      simp [lexLe, h]
    · subst h
      rcases lexLe_total as bs with ih | ih
      · left
        simp [lexLe, lt_irrefl, ih]
      · right
        simp [lexLe, lt_irrefl, ih]
    · right
      simp [lexLe, h]

theorem lexLe_trans : ∀ a b c, lexLe a b = true → lexLe b c = true → lexLe a c = true
  | [], _, _, _, _ => rfl
  | _ :: _, [], _, h1, _ => by simp [lexLe] at h1
  | _ :: _, _ :: _, [], _, h2 => by simp [lexLe] at h2
  | a :: as, b :: bs, c :: cs, h1, h2 => by
    by_cases hab : a < b
    · by_cases hbc : b < c
      · simp [lexLe, lt_trans hab hbc]
      · by_cases hcb : c < b
        · simp [lexLe, hbc, hcb] at h2
        · have : b = c := le_antisymm (le_of_not_lt hcb) (le_of_not_lt hbc)
          subst this
          simp [lexLe, hab]
    · by_cases hba : b < a
      · simp [lexLe, hab, hba] at h1
      · have : a = b := le_antisymm (le_of_not_lt hba) (le_of_not_lt hab)
        subst this
        by_cases hac : a < c
        · simp [lexLe, hac]
        · by_cases hca : c < a
          · simp [lexLe, hac, hca] at h2
          · simp only [lexLe, if_neg hab, if_neg hba] at h1
            simp only [lexLe, if_neg hac, if_neg hca] at h2 ⊢
            exact lexLe_trans as bs cs h1 h2

theorem lexLe_antisymm : ∀ a b, lexLe a b = true → lexLe b a = true → a = b
  | [], [], _, _ => rfl
  | [], _ :: _, _, h2 => by simp [lexLe] at h2
  | _ :: _, [], h1, _ => by simp [lexLe] at h1
  | a :: as, b :: bs, h1, h2 => by
    by_cases hab : a < b
    · simp [lexLe, hab, asymm hab] at h2
    · by_cases hba : b < a
      · simp [lexLe, hab, hba] at h1
      · have hh : a = b := le_antisymm (le_of_not_lt hba) (le_of_not_lt hab)
        subst hh
        simp only [lexLe, if_neg hab, if_neg hba] at h1 h2
        rw [lexLe_antisymm as bs h1 h2]

/-- TypeId (src/src/type_registry.rs).  In the source this is a u64: the
64-bit DefaultHasher digest of the bincode fixint serialization of
(canonical kind, pointer_depth, is_const, is_volatile).  The spec treats the
digest as collision-free, i.e. injective on serialized canonical forms, so
the digest is modelled as the serialization itself (a list of tokens). -/
abbrev TypeId : Type := List Nat

/-- CanonicalEnumVariant (src/src/type_registry.rs): name and value. -/
structure CanonicalEnumVariant : Type where
  name : String
  value : Int
deriving DecidableEq

/-- CanonicalField (src/src/type_registry.rs): name, type id, offset, size. -/
structure CanonicalField : Type where
  name : String
  type_id : TypeId
  offset : Nat
  size : Nat
deriving DecidableEq

/-- CanonicalUnionVariant (src/src/type_registry.rs): name and type id. -/
structure CanonicalUnionVariant : Type where
  name : String
  type_id : TypeId
deriving DecidableEq

/-- CanonicalTypeKind (src/src/type_registry.rs): the canonical form of a
BaseTypeKind, with union and enum variants sorted by name. -/
inductive CanonicalTypeKind : Type where
  | Primitive : String → Nat → Nat → CanonicalTypeKind
  | Struct : String → List CanonicalField → Nat → Nat → Bool → CanonicalTypeKind
  | Union : String → List CanonicalUnionVariant → Nat → Nat → CanonicalTypeKind
  | Enum : String → TypeId → List CanonicalEnumVariant → Nat → CanonicalTypeKind
  | Array : TypeId → Nat → Nat → CanonicalTypeKind
  | Typedef : String → TypeId → CanonicalTypeKind
  | Function : Option TypeId → List TypeId → Bool → CanonicalTypeKind
deriving DecidableEq

/-! Serialization of the canonical form.  This models the bincode fixint
byte string the source hashes: deterministic and injective, with every
variable-length component length-prefixed (bincode length-prefixes strings
and vectors; nested TypeIds are fixed-width u64 in the source and are kept
length-prefixed here because the modelled digest is variable-length).
Tokens are whole integers rather than split into bytes; the split is a
bijection, so nothing about determinism or injectivity changes. -/

/-- Concatenation of token lists. -/
def concatAll : List (List Nat) → List Nat
  | [] => []
  | x :: xs => x ++ concatAll xs

/-- Serialize a string: length prefix then the character codes. -/
def encStr (s : String) : List Nat := s.data.length :: s.data.map Char.toNat

/-- Serialize a bool as one token. -/
def encBool (b : Bool) : List Nat := [cond b 1 0]

/-- Serialize a signed value: sign token then magnitude token. -/
def encInt : Int → List Nat
  | .ofNat n => [0, n]
  | .negSucc n => [1, n]

/-- Serialize an embedded TypeId: length prefix then the digest tokens. -/
def encId (t : TypeId) : List Nat := t.length :: t

/-- Serialize an optional TypeId: presence tag then the payload. -/
def encOptId : Option TypeId → List Nat
  | none => [0]
  | some t => 1 :: encId t

/-- Serialize a TypeId vector: length prefix then the elements. -/
def encIdList (l : List TypeId) : List Nat := l.length :: concatAll (l.map encId)

/-- Serialize a canonical struct field. -/
def encField (f : CanonicalField) : List Nat :=
  encStr f.name ++ encId f.type_id ++ [f.offset, f.size]

/-- Serialize a canonical field vector: length prefix then the elements. -/
def encFieldList (l : List CanonicalField) : List Nat :=
  l.length :: concatAll (l.map encField)

/-- Serialize a canonical union variant. -/
def encUnionVariant (v : CanonicalUnionVariant) : List Nat :=
  encStr v.name ++ encId v.type_id

/-- Serialize a canonical union variant vector. -/
def encUnionVariantList (l : List CanonicalUnionVariant) : List Nat :=
  l.length :: concatAll (l.map encUnionVariant)

/-- Serialize a canonical enum variant. -/
def encEnumVariant (v : CanonicalEnumVariant) : List Nat :=
  encStr v.name ++ encInt v.value

/-- Serialize a canonical enum variant vector. -/
def encEnumVariantList (l : List CanonicalEnumVariant) : List Nat :=
  l.length :: concatAll (l.map encEnumVariant)

/-- Serialize a CanonicalTypeKind: variant tag then the payload fields in
declaration order, as bincode serializes the derived Serialize enum. -/
def serializeCanonical : CanonicalTypeKind → List Nat
  | .Primitive n s a => 0 :: (encStr n ++ [s, a])
  | .Struct n fs s a o => 1 :: (encStr n ++ encFieldList fs ++ [s, a] ++ encBool o)
  | .Union n vs s a => 2 :: (encStr n ++ encUnionVariantList vs ++ [s, a])
  | .Enum n b vs s => 3 :: (encStr n ++ encId b ++ encEnumVariantList vs ++ [s])
  | .Array e c s => 4 :: (encId e ++ [c, s])
  | .Typedef n t => 5 :: (encStr n ++ encId t)
  | .Function r ps v => 6 :: (encOptId r ++ encIdList ps ++ encBool v)

/-- StructField (src/src/type_registry.rs). -/
structure StructField : Type where
  name : String
  type_id : TypeId
  offset : Nat
  size : Nat
deriving DecidableEq

/-- UnionField (src/src/type_registry.rs). -/
structure UnionField : Type where
  name : String
  type_id : TypeId
deriving DecidableEq

/-- EnumVariant (src/src/type_registry.rs): name and signed 64-bit value. -/
structure EnumVariant : Type where
  name : String
  value : Int
deriving DecidableEq

/-- BaseTypeKind (src/src/type_registry.rs). -/
inductive BaseTypeKind : Type where
  | Primitive (name : String) (size : Nat) (alignment : Nat)
  | Struct (name : String) (fields : List StructField) (size : Nat) (alignment : Nat)
      ( is_opaque : Bool)
  | Union (name : String) (variants : List UnionField) (size : Nat) (alignment : Nat)
  | Enum (name : String) (backing_id : TypeId) (variants : List EnumVariant) (size : Nat)
  | Array (element_type_id : TypeId) (count : Nat) (size : Nat)
  | Typedef (name : String) (aliased_type_id : TypeId)
  | Function (return_type_id : Option TypeId) (parameter_type_ids : List TypeId)
      (is_variadic : Bool)
deriving DecidableEq

/-- Ordering used by the canonical sort of union variants: by name.  The
source sorts with sort_by comparing names, a stable sort; insertionSort is
stable with this non-strict relation, so the two sorts agree on every
input, including inputs with repeated names. -/
def CanonicalUnionVariant.le (a b : CanonicalUnionVariant) : Prop :=
  lexLe a.name.data b.name.data = true

instance : DecidableRel CanonicalUnionVariant.le := fun a b =>
  inferInstanceAs (Decidable (lexLe a.name.data b.name.data = true))

/-- Ordering used by the canonical sort of enum variants: by name. -/
def CanonicalEnumVariant.le (a b : CanonicalEnumVariant) : Prop :=
  lexLe a.name.data b.name.data = true

instance : DecidableRel CanonicalEnumVariant.le := fun a b =>
  inferInstanceAs (Decidable (lexLe a.name.data b.name.data = true))

/-- BaseTypeKind::to_canonical (src/src/type_registry.rs): struct fields and
function parameters keep their order; union and enum variants are sorted by
name (stable sort, modelled by insertionSort as explained above). -/
def BaseTypeKind.to_canonical : BaseTypeKind → CanonicalTypeKind
  | .Primitive name size alignment => .Primitive name size alignment
  | .Struct name fields size alignment is_opaque =>
    .Struct name
      (fields.map fun f => CanonicalField.mk f.name f.type_id f.offset f.size)
      size alignment is_opaque
  | .Union name variants size alignment =>
    .Union name
      (List.insertionSort CanonicalUnionVariant.le
        (variants.map fun v => CanonicalUnionVariant.mk v.name v.type_id))
      size alignment
  | .Enum name backing_id variants size =>
    .Enum name backing_id
      (List.insertionSort CanonicalEnumVariant.le
        (variants.map fun v => CanonicalEnumVariant.mk v.name v.value))
      size
  | .Array element_type_id count size => .Array element_type_id count size
  | .Typedef name aliased_type_id => .Typedef name aliased_type_id
  | .Function return_type_id parameter_type_ids is_variadic =>
    .Function return_type_id parameter_type_ids is_variadic

/-- compute_type_id (src/src/type_registry.rs): the source serializes
(to_canonical kind, pointer_depth, is_const, is_volatile) with bincode
fixint and hashes the bytes with DefaultHasher; the collision-free digest is
modelled as the serialization of that tuple. -/
def compute_type_id (kind : BaseTypeKind) (pointer_depth : Nat)
    (is_const : Bool) (is_volatile : Bool) : TypeId :=
  serializeCanonical kind.to_canonical ++ pointer_depth :: (encBool is_const ++ encBool is_volatile)

/-- Type (src/src/type_registry.rs); named TypeRec because Type is reserved
in Lean. -/
structure TypeRec : Type where
  id : TypeId
  kind : BaseTypeKind
  pointer_depth : Nat
  is_const : Bool
  is_volatile : Bool
  dwarf_offset : Option Nat
deriving DecidableEq

/-- Type::get_name (src/src/type_registry.rs). -/
def TypeRec.get_name (t : TypeRec) : String :=
  match t.kind with
  | .Primitive name _ _ => name
  | .Struct name _ _ _ _ => name
  | .Union name _ _ _ => name
  | .Enum name _ _ _ => name
  | .Typedef name _ => name
  | .Array _ _ _ => "<array>"
  | .Function _ _ _ => "<function>"

/-- TypeRegistry (src/src/type_registry.rs): the three HashMaps modelled as
association lists. -/
structure TypeRegistry : Type where
  types : List (TypeId × TypeRec)
  dwarf_to_id : List (Nat × TypeId)
  name_to_ids : List (String × List TypeId)
deriving DecidableEq

/-- TypeRegistry::new. -/
def TypeRegistry.new : TypeRegistry := ⟨[], [], []⟩

/-- TypeRegistry::register_type (src/src/type_registry.rs): recompute the
content-addressed id; on a hit return it without touching anything; on a
miss overwrite the id field, index the DWARF offset and the name, and store
the record. -/
def TypeRegistry.register_type (self : TypeRegistry) (type_ : TypeRec) :
    TypeId × TypeRegistry :=
  let id := compute_type_id type_.kind type_.pointer_depth type_.is_const type_.is_volatile
  if (alookup id self.types).isSome then (id, self)
  else
    let t := { type_ with id := id }
    let dwarf := match t.dwarf_offset with
      | some offset => ainsert offset id self.dwarf_to_id
      | none => self.dwarf_to_id
    let names := aupdate t.get_name (fun cur => (cur.getD []) ++ [id]) self.name_to_ids
    (id, { types := self.types ++ [(id, t)], dwarf_to_id := dwarf, name_to_ids := names })

/-- TypeRegistry::get_type. -/
def TypeRegistry.get_type (self : TypeRegistry) (id : TypeId) : Option TypeRec :=
  alookup id self.types

/-- TypeRegistry::get_by_dwarf_offset. -/
def TypeRegistry.get_by_dwarf_offset (self : TypeRegistry) (offset : Nat) : Option TypeRec :=
  (alookup offset self.dwarf_to_id).bind fun id => alookup id self.types

/-- TypeRegistry::get_by_name. -/
def TypeRegistry.get_by_name (self : TypeRegistry) (name : String) : List TypeRec :=
  match alookup name self.name_to_ids with
  | some ids => ids.filterMap fun id => alookup id self.types
  | none => []

/-- TypeRegistry::len. -/
def TypeRegistry.len (self : TypeRegistry) : Nat := self.types.length

/-- TypeRegistry::merge (src/src/type_registry.rs): union the record map
keeping existing entries, merge the name index with per-name deduplication,
and union the DWARF offset index keeping existing entries. -/
def TypeRegistry.merge (self : TypeRegistry) (other : TypeRegistry) : TypeRegistry :=
  let types := other.types.foldl (fun acc p => ainsertIfAbsent p.1 p.2 acc) self.types
  let names := other.name_to_ids.foldl
    (fun acc p =>
      aupdate p.1
        (fun cur => p.2.foldl (fun e i => if e.contains i then e else e ++ [i]) (cur.getD []))
        acc)
    self.name_to_ids
  let dwarf := other.dwarf_to_id.foldl (fun acc p => ainsertIfAbsent p.1 p.2 acc) self.dwarf_to_id
  { types := types, dwarf_to_id := dwarf, name_to_ids := names }

/-- Parameter (src/src/types.rs): name and rendered type string. -/
structure Parameter : Type where
  name : String
  type_name : String
deriving DecidableEq

/-- FunctionSignature (src/src/types.rs). -/
structure FunctionSignature : Type where
  name : String
  return_type : String
  parameters : List Parameter
  is_variadic : Bool
  is_exported : Bool
deriving DecidableEq

/-- FunctionSignature::to_string (src/src/types.rs). -/
def FunctionSignature.to_string (self : FunctionSignature) : String :=
  let params :=
    if self.parameters.isEmpty then "void"
    else
      let param_strings := self.parameters.map fun p =>
        if p.name.isEmpty then p.type_name else p.type_name ++ " " ++ p.name
      if self.is_variadic then String.intercalate ", " param_strings ++ ", ..."
      else String.intercalate ", " param_strings
  self.return_type ++ " " ++ self.name ++ "(" ++ params ++ ")"

/-! Association list lemmas used to reason about the registry maps. -/

theorem alookup_append {κ ν : Type} [DecidableEq κ] (k : κ) (m₁ m₂ : List (κ × ν)) :
    alookup k (m₁ ++ m₂) = (alookup k m₁).orElse fun _ => alookup k m₂ := by
  induction m₁ with
  | nil => simp [alookup]
  | cons p rest ih =>
    obtain ⟨k', v⟩ := p
    by_cases h : k' = k <;> simp [alookup, h, ih]

theorem alookup_insertIfAbsent {κ ν : Type} [DecidableEq κ] (k k' : κ) (v : ν)
    (m : List (κ × ν)) :
    alookup k (ainsertIfAbsent k' v m) =
      (alookup k m).orElse fun _ => if k' = k then some v else none := by
  unfold ainsertIfAbsent
  by_cases hks : (alookup k' m).isSome
  · simp only [hks, if_true]
    by_cases hk : k' = k
    · subst hk
      obtain ⟨w, hw⟩ := Option.isSome_iff_exists.mp hks
      simp [hw]
    · cases hc : alookup k m <;> simp [hk]
  · rw [if_neg hks, alookup_append]
    congr 1

theorem alookup_foldl_insertIfAbsent {κ ν : Type} [DecidableEq κ] (k : κ)
    (l : List (κ × ν)) (m : List (κ × ν)) :
    alookup k (l.foldl (fun acc p => ainsertIfAbsent p.1 p.2 acc) m) =
      (alookup k m).orElse fun _ => alookup k l := by
  induction l generalizing m with
  | nil => cases h : alookup k m <;> simp [alookup, h]
  | cons p rest ih =>
    obtain ⟨k', v⟩ := p
    rw [List.foldl_cons, ih, alookup_insertIfAbsent]
    cases h : alookup k m <;> by_cases hk : k' = k <;> simp [alookup, h, hk]

theorem alookup_isSome_of_mem {κ ν : Type} [DecidableEq κ] {p : κ × ν} {m : List (κ × ν)}
    (h : p ∈ m) : (alookup p.1 m).isSome := by
  induction m with
  | nil => cases h
  | cons q rest ih =>
    obtain ⟨k', v⟩ := q
    rcases List.mem_cons.mp h with h1 | h2
    · subst h1
      simp [alookup]
    · by_cases hk : k' = p.1 <;> simp [alookup, hk, ih h2]

theorem foldl_insertIfAbsent_self {κ ν : Type} [DecidableEq κ] (l m : List (κ × ν))
    (h : ∀ p ∈ l, (alookup p.1 m).isSome) :
    l.foldl (fun acc p => ainsertIfAbsent p.1 p.2 acc) m = m := by
  induction l with
  | nil => rfl
  | cons p rest ih =>
    have hp := h p (List.mem_cons_self p rest)
    rw [List.foldl_cons]
    have hstep : ainsertIfAbsent p.1 p.2 m = m := by
      unfold ainsertIfAbsent
      simp [hp]
    rw [hstep]
    exact ih fun q hq => h q (List.mem_cons_of_mem p hq)

theorem alookup_of_mem_nodup {κ ν : Type} [DecidableEq κ] {p : κ × ν} {m : List (κ × ν)}
    (hnd : (m.map Prod.fst).Nodup) (h : p ∈ m) : alookup p.1 m = some p.2 := by
  induction m with
  | nil => cases h
  | cons q rest ih =>
    obtain ⟨k', v⟩ := q
    simp only [List.map_cons, List.nodup_cons] at hnd
    rcases List.mem_cons.mp h with h1 | h2
    · subst h1
      simp [alookup]
    · have hne : k' ≠ p.1 := by
        intro he
        exact hnd.1 (he ▸ List.mem_map_of_mem Prod.fst h2)
      simp [alookup, hne, ih hnd.2 h2]

theorem aupdate_id {κ ν : Type} [DecidableEq κ] {k : κ} {v : ν} {f : Option ν → ν}
    {m : List (κ × ν)} (hl : alookup k m = some v) (hf : f (some v) = v) :
    aupdate k f m = m := by
  induction m with
  | nil => simp [alookup] at hl
  | cons q rest ih =>
    obtain ⟨k', w⟩ := q
    by_cases hk : k' = k
    · subst hk
      simp only [alookup, if_pos rfl] at hl
      obtain rfl : w = v := by injection hl
      simp [aupdate, hf]
    · simp only [alookup, if_neg hk] at hl
      simp [aupdate, hk, ih hl]

theorem foldl_dedup_self {α : Type} [BEq α] [LawfulBEq α] (l e : List α) (h : ∀ i ∈ l, i ∈ e) :
    l.foldl (fun acc i => if acc.contains i then acc else acc ++ [i]) e = e := by
  induction l with
  | nil => rfl
  | cons a rest ih =>
    have ha : e.contains a := List.elem_eq_true_of_mem (h a (List.mem_cons_self a rest))
    rw [List.foldl_cons]
    simp only [ha, if_true]
    exact ih fun i hi => h i (List.mem_cons_of_mem a hi)

/-- A stable sort keyed by names is determined by the multiset of elements
whenever the keys are pairwise distinct: the two sorted lists agree. -/
theorem insertionSort_eq_of_perm_of_nodup_keys {α : Type} (key : α → String)
    (r : α → α → Prop) [DecidableRel r]
    (hr : ∀ a b, r a b ↔ lexLe (key a).data (key b).data = true)
    {l₁ l₂ : List α} (hp : l₁.Perm l₂) (hnd : (l₁.map key).Nodup) :
    List.insertionSort r l₁ = List.insertionSort r l₂ := by
  haveI : IsTotal α r := ⟨fun a b => by rw [hr, hr]; exact lexLe_total _ _⟩
  haveI : IsTrans α r :=
    ⟨fun a b c h1 h2 => (hr a c).mpr (lexLe_trans _ _ _ ((hr a b).mp h1) ((hr b c).mp h2))⟩
  haveI : IsAntisymm α (fun a b => r a b ∧ key a ≠ key b) :=
    ⟨fun a b h1 h2 => by
      have hd : (key a).data = (key b).data :=
        lexLe_antisymm _ _ ((hr a b).mp h1.1) ((hr b a).mp h2.1)
      exact absurd (String.toList_inj.mp hd) h1.2⟩
  have hperm : (List.insertionSort r l₁).Perm (List.insertionSort r l₂) :=
    (List.perm_insertionSort r l₁).trans (hp.trans (List.perm_insertionSort r l₂).symm)
  have hnd₁ : ((List.insertionSort r l₁).map key).Nodup :=
    (((List.perm_insertionSort r l₁).map key).nodup_iff).mpr hnd
  have hnd₂ : ((List.insertionSort r l₂).map key).Nodup :=
    (hperm.map key).nodup_iff.mp hnd₁
  have hup : ∀ (s : List α), s.Sorted r → (s.map key).Nodup →
      s.Sorted fun a b => r a b ∧ key a ≠ key b := by
    intro s hs hn
    have hne : s.Pairwise fun a b => key a ≠ key b := List.pairwise_map.mp hn
    exact (hs.and hne).imp fun h => h
  exact List.eq_of_perm_of_sorted hperm
    (hup _ (List.sorted_insertionSort r l₁) hnd₁)
    (hup _ (List.sorted_insertionSort r l₂) hnd₂)

/-! Concrete fixtures used by counterexamples and witnesses. -/

/-- Placeholder for the TypeId(0) value the source puts into records before
registration overwrites it. -/
def TypeId0 : TypeId := [0]

/-- The plain int primitive kind. -/
def intKind : BaseTypeKind := .Primitive "int" 4 4

/-- An int record as built by the resolver, with a given provenance offset. -/
def intRec (off : Option Nat) : TypeRec :=
  ⟨TypeId0, intKind, 0, false, false, off⟩

/-- Content-addressed id of the plain int record. -/
def intId : TypeId := compute_type_id intKind 0 false false

/-- A registry that already contains the int record. -/
def c1Base : TypeRegistry := (TypeRegistry.new.register_type (intRec (some 256))).2

/-- C1: the claim quantifies over every registry state, but when the record
is already present the two register_type calls leave len unchanged, so the
pair of calls does not increase len by one on the registry c1Base that
already holds the record. -/
theorem C1_register_idempotent_counterexample :
    ((c1Base.register_type (intRec (some 256))).2.register_type (intRec (some 256))).2.len
      ≠ c1Base.len + 1 := by decide

/-- C1 (amended): registering a record twice returns the same TypeId both
times and the second call leaves the registry unchanged; len grows by
exactly one on the first call when the content id is fresh, and not at all
when the record is already present. -/
theorem C1_register_idempotent (reg : TypeRegistry) (T : TypeRec) :
    ((reg.register_type T).2.register_type T).1 = (reg.register_type T).1 ∧
    ((reg.register_type T).2.register_type T).2 = (reg.register_type T).2 ∧
    (alookup (compute_type_id T.kind T.pointer_depth T.is_const T.is_volatile) reg.types = none →
      (reg.register_type T).2.len = reg.len + 1) ∧
    ((alookup (compute_type_id T.kind T.pointer_depth T.is_const T.is_volatile) reg.types).isSome →
      (reg.register_type T).2 = reg) := by
  have hdup : ∀ R : TypeRegistry,
      (alookup (compute_type_id T.kind T.pointer_depth T.is_const T.is_volatile)
        R.types).isSome →
      R.register_type T =
        (compute_type_id T.kind T.pointer_depth T.is_const T.is_volatile, R) :=
    fun R hs => by simp [TypeRegistry.register_type, hs]
  by_cases h : (alookup (compute_type_id T.kind T.pointer_depth T.is_const T.is_volatile)
      reg.types).isSome
  · have hreg := hdup reg h
    have hsecond : (alookup (compute_type_id T.kind T.pointer_depth T.is_const T.is_volatile)
        (reg.register_type T).2.types).isSome := by
      rw [hreg]
      exact h
    have hreg2 := hdup (reg.register_type T).2 hsecond
    refine ⟨?_, ?_, ?_, ?_⟩
    · rw [hreg2, hreg]
    · rw [hreg2]
    · intro hnone
      rw [hnone] at h
      simp at h
    · intro _
      rw [hreg]
  · have hnone : alookup (compute_type_id T.kind T.pointer_depth T.is_const T.is_volatile)
        reg.types = none := Option.not_isSome_iff_eq_none.mp h
    have hreg : reg.register_type T =
        (compute_type_id T.kind T.pointer_depth T.is_const T.is_volatile,
          { types := reg.types ++
              [(compute_type_id T.kind T.pointer_depth T.is_const T.is_volatile,
                { T with id := compute_type_id T.kind T.pointer_depth T.is_const T.is_volatile })],
            dwarf_to_id := match T.dwarf_offset with
              | some offset =>
                ainsert offset (compute_type_id T.kind T.pointer_depth T.is_const T.is_volatile)
                  reg.dwarf_to_id
              | none => reg.dwarf_to_id,
            name_to_ids := aupdate
              (TypeRec.get_name
                { T with id := compute_type_id T.kind T.pointer_depth T.is_const T.is_volatile })
              (fun cur => (cur.getD []) ++
                [compute_type_id T.kind T.pointer_depth T.is_const T.is_volatile])
              reg.name_to_ids }) := by
      simp [TypeRegistry.register_type, h]
    have hsecond : (alookup (compute_type_id T.kind T.pointer_depth T.is_const T.is_volatile)
        (reg.register_type T).2.types).isSome := by
      rw [hreg]
      simp only [alookup_append, hnone, alookup]
      simp
    have hreg2 := hdup (reg.register_type T).2 hsecond
    refine ⟨?_, ?_, ?_, ?_⟩
    · rw [hreg2, hreg]
    · rw [hreg2]
    · intro _
      rw [hreg]
      simp [TypeRegistry.len]
    · intro hs
      rw [hnone] at hs
      simp at hs

/-- C1 witness: a fresh registration of the int record on the empty registry
grows len by one. -/
theorem C1_register_idempotent_witness :
    (TypeRegistry.new.register_type (intRec none)).2.len = TypeRegistry.new.len + 1 :=
  (C1_register_idempotent TypeRegistry.new (intRec none)).2.2.1 (by decide)

/-- Every stored record carries the content hash of its own payload as id. -/
def RegistryInv (reg : TypeRegistry) : Prop :=
  ∀ id t, alookup id reg.types = some t →
    t.id = compute_type_id t.kind t.pointer_depth t.is_const t.is_volatile

/-- C4: register_type preserves the invariant that for every stored record the id
field is the content hash of its own kind, pointer depth and qualifier
flags, and the id carried by the record passed in has no effect on the
result at all. -/
theorem C4_forgery_prevention :
    (∀ (reg : TypeRegistry) (T : TypeRec), RegistryInv reg → RegistryInv (reg.register_type T).2) ∧
    (∀ (reg : TypeRegistry) (T : TypeRec) (x : TypeId),
      reg.register_type { T with id := x } = reg.register_type T) := by
  constructor
  · intro reg T hinv
    by_cases h : (alookup (compute_type_id T.kind T.pointer_depth T.is_const T.is_volatile)
        reg.types).isSome
    · have hreg : (reg.register_type T).2 = reg := by
        simp [TypeRegistry.register_type, h]
      rw [hreg]
      exact hinv
    · intro id t hl
      have hl' : alookup id ((reg.register_type T).2.types) = some t := hl
      rw [show (reg.register_type T).2.types = reg.types ++
            [(compute_type_id T.kind T.pointer_depth T.is_const T.is_volatile,
              { T with id := compute_type_id T.kind T.pointer_depth T.is_const T.is_volatile })]
          from by simp [TypeRegistry.register_type, h]] at hl'
      rw [alookup_append] at hl'
      cases hold : alookup id reg.types with
      | some t0 =>
        rw [hold] at hl'
        have ht : t0 = t := by simpa using hl'
        exact hinv id t (ht ▸ hold)
      | none =>
        rw [hold] at hl'
        simp only [Option.orElse] at hl'
        by_cases hid : compute_type_id T.kind T.pointer_depth T.is_const T.is_volatile = id
        · simp only [alookup, if_pos hid] at hl'
          have ht : ({ T with
              id := compute_type_id T.kind T.pointer_depth T.is_const T.is_volatile } :
                TypeRec) = t := by
            simpa using hl'
          rw [← ht]
        · simp [alookup, if_neg hid] at hl'
  · intro reg T x
    cases T
    simp [TypeRegistry.register_type]

/-- C4 witness: the invariant holds after registering int on the empty
registry, and overwriting the incoming id with the real int id changes
nothing. -/
theorem C4_forgery_prevention_witness :
    RegistryInv (TypeRegistry.new.register_type (intRec (some 256))).2 ∧
    TypeRegistry.new.register_type { intRec none with id := intId } =
      TypeRegistry.new.register_type (intRec none) :=
  ⟨C4_forgery_prevention.1 TypeRegistry.new (intRec (some 256))
      (fun _ _ h => Option.noConfusion h),
    C4_forgery_prevention.2 TypeRegistry.new (intRec none) intId⟩

/-- C10: when the computed content id is already a key, register_type
returns that id and the whole registry — records, name index and DWARF
offset index — is returned unchanged, so an offset absent from the index
stays unresolvable. -/
theorem C10_duplicate_registration_frame (reg : TypeRegistry) (T : TypeRec)
    (h : (alookup (compute_type_id T.kind T.pointer_depth T.is_const T.is_volatile)
      reg.types).isSome) :
    reg.register_type T =
      (compute_type_id T.kind T.pointer_depth T.is_const T.is_volatile, reg) ∧
    ∀ off, T.dwarf_offset = some off → alookup off reg.dwarf_to_id = none →
      (reg.register_type T).2.get_by_dwarf_offset off = none := by
  have hreg : reg.register_type T =
      (compute_type_id T.kind T.pointer_depth T.is_const T.is_volatile, reg) := by
    simp [TypeRegistry.register_type, h]
  refine ⟨hreg, ?_⟩
  intro off _ hni
  rw [hreg]
  simp [TypeRegistry.get_by_dwarf_offset, hni]

/-- C10 witness: registering the int record again with a new DWARF offset
512 leaves c1Base untouched and offset 512 unresolvable. -/
theorem C10_duplicate_registration_frame_witness :
    c1Base.register_type (intRec (some 512)) = (intId, c1Base) ∧
    (c1Base.register_type (intRec (some 512))).2.get_by_dwarf_offset 512 = none :=
  ⟨(C10_duplicate_registration_frame c1Base (intRec (some 512)) (by decide)).1,
    (C10_duplicate_registration_frame c1Base (intRec (some 512)) (by decide)).2 512 rfl
      (by decide)⟩

theorem foldl_name_merge_self (l m : List (String × List TypeId))
    (hnd : (m.map Prod.fst).Nodup) (hsub : ∀ p ∈ l, p ∈ m) :
    l.foldl (fun acc p => aupdate p.1
      (fun cur => p.2.foldl (fun e i => if e.contains i then e else e ++ [i]) (cur.getD []))
      acc) m = m := by
  induction l with
  | nil => rfl
  | cons p rest ih =>
    rw [List.foldl_cons]
    have hl : alookup p.1 m = some p.2 :=
      alookup_of_mem_nodup hnd (hsub p (List.mem_cons_self p rest))
    have hf : p.2.foldl (fun e i => if e.contains i then e else e ++ [i])
        ((some p.2).getD []) = p.2 :=
      foldl_dedup_self p.2 p.2 (fun _ hi => hi)
    rw [aupdate_id hl hf]
    exact ih fun q hq => hsub q (List.mem_cons_of_mem p hq)

/-- A registry different from c1Base only in the provenance offset the int
record carries. -/
def c5B : TypeRegistry := (TypeRegistry.new.register_type (intRec (some 512))).2

/-- C5: merge in the two orders does not yield identical contents on every
pair of registries: here both registries store the int record under the
same TypeId, but with different dwarf_offset provenance, and each merge
order keeps the copy held by its receiver. -/
theorem C5_merge_counterexample :
    (c1Base.merge c5B).get_type intId ≠ (c5B.merge c1Base).get_type intId := by decide

/-- C5 (amended): merge unions the record maps keeping the entry of the receiver
on a colliding TypeId; merging a well-formed registry into itself changes
nothing; and the two merge orders agree on every TypeId at which the two
registries do not store conflicting records. -/
theorem C5_merge_semantics :
    (∀ (A B : TypeRegistry) (id : TypeId),
      alookup id (A.merge B).types =
        (alookup id A.types).orElse fun _ => alookup id B.types) ∧
    (∀ A : TypeRegistry, (A.name_to_ids.map Prod.fst).Nodup → A.merge A = A) ∧
    (∀ A B : TypeRegistry,
      (∀ id tA tB, alookup id A.types = some tA → alookup id B.types = some tB → tA = tB) →
      ∀ id, alookup id (A.merge B).types = alookup id (B.merge A).types) := by
  have hunion : ∀ (A B : TypeRegistry) (id : TypeId),
      alookup id (A.merge B).types =
        (alookup id A.types).orElse fun _ => alookup id B.types := by
    intro A B id
    show alookup id (B.types.foldl (fun acc p => ainsertIfAbsent p.1 p.2 acc) A.types) = _
    exact alookup_foldl_insertIfAbsent id B.types A.types
  refine ⟨hunion, ?_, ?_⟩
  · intro A hnd
    show (⟨A.types.foldl (fun acc p => ainsertIfAbsent p.1 p.2 acc) A.types,
        A.dwarf_to_id.foldl (fun acc p => ainsertIfAbsent p.1 p.2 acc) A.dwarf_to_id,
        A.name_to_ids.foldl (fun acc p => aupdate p.1
          (fun cur => p.2.foldl (fun e i => if e.contains i then e else e ++ [i]) (cur.getD []))
          acc) A.name_to_ids⟩ : TypeRegistry) = A
    rw [foldl_insertIfAbsent_self A.types A.types
        (fun p hp => alookup_isSome_of_mem hp),
      foldl_insertIfAbsent_self A.dwarf_to_id A.dwarf_to_id
        (fun p hp => alookup_isSome_of_mem hp),
      foldl_name_merge_self A.name_to_ids A.name_to_ids hnd (fun _ hp => hp)]
  · intro A B hagree id
    rw [hunion A B id, hunion B A id]
    cases ha : alookup id A.types with
    | some tA =>
      cases hb : alookup id B.types with
      | some tB => simp [hagree id tA tB ha hb]
      | none => simp
    | none =>
      cases hb : alookup id B.types with
      | some tB => simp
      | none => simp

/-- C5 witness: union behaviour at the int id for the two concrete
registries, self-merge identity on c1Base, and order agreement of merging
c1Base with the empty registry. -/
theorem C5_merge_semantics_witness :
    (alookup intId (c1Base.merge c5B).types =
      ((alookup intId c1Base.types).orElse fun _ => alookup intId c5B.types)) ∧
    c1Base.merge c1Base = c1Base ∧
    alookup intId (c1Base.merge TypeRegistry.new).types =
      alookup intId (TypeRegistry.new.merge c1Base).types :=
  ⟨C5_merge_semantics.1 c1Base c5B intId,
    C5_merge_semantics.2.1 c1Base (by decide),
    C5_merge_semantics.2.2 c1Base TypeRegistry.new
      (fun _ _ _ _ hB => Option.noConfusion hB) intId⟩

/-- C2: two Enum records identical except for variant order and with the
same multiset of variants can still hash differently when variant names
repeat: the stable sort by name alone leaves equally-named variants in
their source order. -/
theorem C2_setlike_order_independence_counterexample :
    compute_type_id (.Enum "Status" intId [⟨"A", 0⟩, ⟨"A", 1⟩] 4) 0 false false ≠
      compute_type_id (.Enum "Status" intId [⟨"A", 1⟩, ⟨"A", 0⟩] 4) 0 false false := by
  decide

/-- C2 (amended): enum and union records identical except for the order of
their variant lists hash to the same TypeId whenever the variant names are
pairwise distinct within the record. -/
theorem C2_setlike_order_independence :
    (∀ (name : String) (backing : TypeId) (size : Nat) (v₁ v₂ : List EnumVariant)
        (pd : Nat) (c vol : Bool), v₁.Perm v₂ → (v₁.map EnumVariant.name).Nodup →
      compute_type_id (.Enum name backing v₁ size) pd c vol =
        compute_type_id (.Enum name backing v₂ size) pd c vol) ∧
    (∀ (name : String) (size alignment : Nat) (v₁ v₂ : List UnionField)
        (pd : Nat) (c vol : Bool), v₁.Perm v₂ → (v₁.map UnionField.name).Nodup →
      compute_type_id (.Union name v₁ size alignment) pd c vol =
        compute_type_id (.Union name v₂ size alignment) pd c vol) := by
  constructor
  · intro name backing size v₁ v₂ pd c vol hp hnd
    have hsort : List.insertionSort CanonicalEnumVariant.le
        (v₁.map fun v => CanonicalEnumVariant.mk v.name v.value) =
        List.insertionSort CanonicalEnumVariant.le
        (v₂.map fun v => CanonicalEnumVariant.mk v.name v.value) := by
      refine insertionSort_eq_of_perm_of_nodup_keys CanonicalEnumVariant.name
        CanonicalEnumVariant.le (fun a b => Iff.rfl)
        (hp.map fun v => CanonicalEnumVariant.mk v.name v.value) ?_
      simpa [List.map_map, Function.comp] using hnd
    simp only [compute_type_id, BaseTypeKind.to_canonical, hsort]
  · intro name size alignment v₁ v₂ pd c vol hp hnd
    have hsort : List.insertionSort CanonicalUnionVariant.le
        (v₁.map fun v => CanonicalUnionVariant.mk v.name v.type_id) =
        List.insertionSort CanonicalUnionVariant.le
        (v₂.map fun v => CanonicalUnionVariant.mk v.name v.type_id) := by
      refine insertionSort_eq_of_perm_of_nodup_keys CanonicalUnionVariant.name
        CanonicalUnionVariant.le (fun a b => Iff.rfl)
        (hp.map fun v => CanonicalUnionVariant.mk v.name v.type_id) ?_
      simpa [List.map_map, Function.comp] using hnd
    simp only [compute_type_id, BaseTypeKind.to_canonical, hsort]

/-- C2 witness: the Status enum and a two-variant union hash identically
after swapping their variant lists. -/
theorem C2_setlike_order_independence_witness :
    compute_type_id (.Enum "Status" intId [⟨"OK", 0⟩, ⟨"ERROR", 1⟩] 4) 0 false false =
      compute_type_id (.Enum "Status" intId [⟨"ERROR", 1⟩, ⟨"OK", 0⟩] 4) 0 false false ∧
    compute_type_id (.Union "DataUnion" [⟨"as_int", intId⟩, ⟨"as_float", TypeId0⟩] 4 4)
        0 false false =
      compute_type_id (.Union "DataUnion" [⟨"as_float", TypeId0⟩, ⟨"as_int", intId⟩] 4 4)
        0 false false :=
  ⟨C2_setlike_order_independence.1 "Status" intId 4 _ _ 0 false false
      (List.Perm.swap _ _ _) (by decide),
    C2_setlike_order_independence.2 "DataUnion" 4 4 _ _ 0 false false
      (List.Perm.swap _ _ _) (by decide)⟩

/-! Injectivity of the canonical serialization, used to separate TypeIds of
order-sensitive records. -/

theorem char_toNat_injective : Function.Injective Char.toNat := by
  intro a b h
  have := congrArg Char.ofNat h
  rwa [Char.ofNat_toNat, Char.ofNat_toNat] at this

theorem encStr_prefix_inj (s t : String) (r₁ r₂ : List Nat)
    (h : encStr s ++ r₁ = encStr t ++ r₂) : s = t ∧ r₁ = r₂ := by
  simp only [encStr, List.cons_append] at h
  have hlen : s.data.length = t.data.length := by injection h
  have htail : s.data.map Char.toNat ++ r₁ = t.data.map Char.toNat ++ r₂ := by injection h
  obtain ⟨hmap, hrest⟩ := List.append_inj htail (by simpa using hlen)
  exact ⟨String.toList_inj.mp (List.map_injective_iff.mpr char_toNat_injective hmap), hrest⟩

theorem encId_prefix_inj (x y : TypeId) (r₁ r₂ : List Nat)
    (h : encId x ++ r₁ = encId y ++ r₂) : x = y ∧ r₁ = r₂ := by
  simp only [encId, List.cons_append] at h
  have hlen : x.length = y.length := by injection h
  have htail : x ++ r₁ = y ++ r₂ := by injection h
  exact List.append_inj htail hlen

theorem encField_prefix_inj (f g : CanonicalField) (r₁ r₂ : List Nat)
    (h : encField f ++ r₁ = encField g ++ r₂) : f = g ∧ r₁ = r₂ := by
  simp only [encField, List.append_assoc, List.cons_append, List.nil_append] at h
  obtain ⟨hname, h1⟩ := encStr_prefix_inj _ _ _ _ h
  obtain ⟨hid, h2⟩ := encId_prefix_inj _ _ _ _ h1
  have hoff : f.offset = g.offset := by injection h2
  have h3 : f.size :: r₁ = g.size :: r₂ := by injection h2
  have hsize : f.size = g.size := by injection h3
  have hrest : r₁ = r₂ := by injection h3
  refine ⟨?_, hrest⟩
  cases f
  cases g
  simp_all

theorem concatAll_encField_inj : ∀ (f₁ f₂ : List CanonicalField), f₁.length = f₂.length →
    concatAll (f₁.map encField) = concatAll (f₂.map encField) → f₁ = f₂
  | [], [], _, _ => rfl
  | [], _ :: _, hl, _ => by simp at hl
  | _ :: _, [], hl, _ => by simp at hl
  | a :: as, b :: bs, hl, h => by
    simp only [List.map_cons, concatAll] at h
    obtain ⟨hab, hrest⟩ := encField_prefix_inj a b _ _ h
    rw [hab, concatAll_encField_inj as bs (by simpa using hl) hrest]

theorem concatAll_encId_inj : ∀ (p₁ p₂ : List TypeId), p₁.length = p₂.length →
    concatAll (p₁.map encId) = concatAll (p₂.map encId) → p₁ = p₂
  | [], [], _, _ => rfl
  | [], _ :: _, hl, _ => by simp at hl
  | _ :: _, [], hl, _ => by simp at hl
  | a :: as, b :: bs, hl, h => by
    simp only [List.map_cons, concatAll] at h
    obtain ⟨hab, hrest⟩ := encId_prefix_inj a b _ _ h
    rw [hab, concatAll_encId_inj as bs (by simpa using hl) hrest]

/-- C3: struct records that differ only in the order of their field lists,
and function records that differ only in the order of their parameter
TypeId lists, hash to distinct TypeIds. -/
theorem C3_sequence_order_sensitivity :
    (∀ (name : String) (size alignment : Nat) ( is_opaque : Bool)
        (f₁ f₂ : List StructField) (pd : Nat) (c vol : Bool), f₁.Perm f₂ → f₁ ≠ f₂ →
      compute_type_id (.Struct name f₁ size alignment is_opaque) pd c vol ≠
        compute_type_id (.Struct name f₂ size alignment is_opaque) pd c vol) ∧
    (∀ (ret : Option TypeId) (p₁ p₂ : List TypeId) (variadic : Bool)
        (pd : Nat) (c vol : Bool), p₁.Perm p₂ → p₁ ≠ p₂ →
      compute_type_id (.Function ret p₁ variadic) pd c vol ≠
        compute_type_id (.Function ret p₂ variadic) pd c vol) := by
  constructor
  · intro name size alignment is_opaque f₁ f₂ pd c vol hperm hne heq
    apply hne
    simp only [compute_type_id, BaseTypeKind.to_canonical] at heq
    have hser := List.append_cancel_right heq
    simp only [serializeCanonical] at hser
    have htail : encStr name ++
        encFieldList (f₁.map fun f => CanonicalField.mk f.name f.type_id f.offset f.size) ++
        [size, alignment] ++ encBool is_opaque =
        encStr name ++
        encFieldList (f₂.map fun f => CanonicalField.mk f.name f.type_id f.offset f.size) ++
        [size, alignment] ++ encBool is_opaque := by injection hser
    simp only [List.append_assoc] at htail
    have hfl := List.append_cancel_right (List.append_cancel_left htail)
    simp only [encFieldList] at hfl
    have hconcat : concatAll
        ((f₁.map fun f => CanonicalField.mk f.name f.type_id f.offset f.size).map encField) =
        concatAll
        ((f₂.map fun f => CanonicalField.mk f.name f.type_id f.offset f.size).map encField) := by
      injection hfl
    have hcf := concatAll_encField_inj _ _ (by simpa using hperm.length_eq) hconcat
    have hinj : Function.Injective
        (fun f : StructField => CanonicalField.mk f.name f.type_id f.offset f.size) := by
      intro a b hab
      cases a
      cases b
      simpa [CanonicalField.mk.injEq] using hab
    exact List.map_injective_iff.mpr hinj hcf
  · intro ret p₁ p₂ variadic pd c vol hperm hne heq
    apply hne
    simp only [compute_type_id, BaseTypeKind.to_canonical] at heq
    have hser := List.append_cancel_right heq
    simp only [serializeCanonical] at hser
    have htail : encOptId ret ++ encIdList p₁ ++ encBool variadic =
        encOptId ret ++ encIdList p₂ ++ encBool variadic := by injection hser
    simp only [List.append_assoc] at htail
    have hpl := List.append_cancel_right (List.append_cancel_left htail)
    simp only [encIdList] at hpl
    have hconcat : concatAll (p₁.map encId) = concatAll (p₂.map encId) := by injection hpl
    exact concatAll_encId_inj _ _ hperm.length_eq hconcat

/-- Content-addressed id of the plain float record. -/
def floatId : TypeId := compute_type_id (.Primitive "float" 4 4) 0 false false

/-- C3 witness: swapping the two fields of Point, and swapping the two
parameters of a function pointer type, change the TypeId. -/
theorem C3_sequence_order_sensitivity_witness :
    compute_type_id
        (.Struct "Point" [⟨"x", intId, 0, 4⟩, ⟨"y", intId, 4, 4⟩] 8 4 false) 0 false false ≠
      compute_type_id
        (.Struct "Point" [⟨"y", intId, 4, 4⟩, ⟨"x", intId, 0, 4⟩] 8 4 false) 0 false false ∧
    compute_type_id (.Function none [intId, floatId] false) 1 false false ≠
      compute_type_id (.Function none [floatId, intId] false) 1 false false :=
  ⟨C3_sequence_order_sensitivity.1 "Point" 8 4 false _ _ 0 false false
      (List.Perm.swap _ _ _) (by decide),
    C3_sequence_order_sensitivity.2 none _ _ false 1 false false
      (List.Perm.swap _ _ _) (by decide)⟩

/-- Rendering of a signature as the C6 claim words it: empty parameters
render as the literal void, and whenever is_variadic is true the rendering
appends the ellipsis after the parameters.  This follows the claim text,
not the source, and is compared against the source rendering. -/
def claimRenderC6 (sig : FunctionSignature) : String :=
  let rendered := sig.parameters.map fun p =>
    if p.name.isEmpty then p.type_name else p.type_name ++ " " ++ p.name
  let params := if sig.parameters.isEmpty then "void" else String.intercalate ", " rendered
  let params := if sig.is_variadic then params ++ ", ..." else params
  sig.return_type ++ " " ++ sig.name ++ "(" ++ params ++ ")"

/-- C6: a variadic signature with an empty parameter list renders as void
with no ellipsis, unlike the claim, which appends the ellipsis whenever
is_variadic is true. -/
theorem C6_signature_rendering_counterexample :
    (⟨"f", "void", [], true, true⟩ : FunctionSignature).to_string ≠
      claimRenderC6 ⟨"f", "void", [], true, true⟩ ∧
    (⟨"f", "void", [], true, true⟩ : FunctionSignature).to_string = "void f(void)" := by
  constructor
  · decide
  · rfl

/-- C6 (amended): to_string renders RET NAME(PARAMS); an empty parameter
list renders PARAMS as the literal void (even when is_variadic is true); a
parameter with an empty name renders its type alone, otherwise TYPE NAME;
parameters are joined with comma-space; and when the parameter list is
nonempty and is_variadic is true the ellipsis is appended after them. -/
theorem C6_signature_rendering (sig : FunctionSignature) :
    (sig.parameters = [] →
      sig.to_string = sig.return_type ++ " " ++ sig.name ++ "(" ++ "void" ++ ")") ∧
    (sig.parameters ≠ [] → sig.is_variadic = false →
      sig.to_string = sig.return_type ++ " " ++ sig.name ++ "(" ++
        String.intercalate ", " (sig.parameters.map fun p =>
          if p.name.isEmpty then p.type_name else p.type_name ++ " " ++ p.name) ++ ")") ∧
    (sig.parameters ≠ [] → sig.is_variadic = true →
      sig.to_string = sig.return_type ++ " " ++ sig.name ++ "(" ++
        (String.intercalate ", " (sig.parameters.map fun p =>
          if p.name.isEmpty then p.type_name else p.type_name ++ " " ++ p.name) ++ ", ...") ++
        ")") := by
  refine ⟨?_, ?_, ?_⟩
  · intro he
    simp [FunctionSignature.to_string, he]
  · intro hne hv
    have he : sig.parameters.isEmpty = false := by
      cases hp : sig.parameters with
      | nil => exact absurd hp hne
      | cons a as => simp
    simp [FunctionSignature.to_string, he, hv]
  · intro hne hv
    have he : sig.parameters.isEmpty = false := by
      cases hp : sig.parameters with
      | nil => exact absurd hp hne
      | cons a as => simp
    simp [FunctionSignature.to_string, he, hv]

/-- C6 witness: the printf signature renders with the ellipsis appended. -/
theorem C6_signature_rendering_witness :
    (⟨"printf", "int", [⟨"format", "const char*"⟩], true, true⟩ :
        FunctionSignature).to_string =
      "int" ++ " " ++ "printf" ++ "(" ++
        (String.intercalate ", "
          (([⟨"format", "const char*"⟩] : List Parameter).map fun p =>
            if p.name.isEmpty then p.type_name else p.type_name ++ " " ++ p.name) ++ ", ...") ++
        ")" :=
  (C6_signature_rendering ⟨"printf", "int", [⟨"format", "const char*"⟩], true, true⟩).2.2
    (by decide) rfl

/-! DWARF model for the resolver and the analyzer (src/src/type_resolver.rs
and src/src/dwarf_analyzer.rs).

A DIE is modelled with the attributes those modules read.  String-valued
attributes are pre-decoded: name and linkage_name are none when the
attribute is absent or its bytes fail to decode (read_attr_string and
get_name collapse those cases).  Reference-valued attributes are some
offset when the attribute is present as a unit-local reference and none
otherwise (every call site treats an absent attribute and a non-reference
value the same way).  declaration is none when absent and some b where b is
the attr_flag_is_true reading; artificial is its attr_flag_is_true reading
directly.  byte_size, data_member_location, const_value, count_attr and
upper_bound carry the decoded numeric values.  children lists the direct
child DIEs (what entries_tree yields); the unit also carries the flat DFS
list of every DIE (what next_dfs walks), and entries_at_offset is findDie
on that list.

Fallible Rust paths return Option; mutation of the resolver carries the
state explicitly.  All recursion is fuelled: every recursive call spends
one unit of fuel, and running out of fuel is one more error path, never
reached in the theorems below, which supply enough fuel. -/

/-- The DWARF tags the two modules distinguish; every other tag is carried
with its display string (what the source formats into unknown-tag names). -/
inductive DwTag : Type where
  | base_type
  | pointer_type
  | const_type
  | volatile_type
  | typedef
  | structure_type
  | union_type
  | enumeration_type
  | array_type
  | subroutine_type
  | subprogram
  | formal_parameter
  | unspecified_parameters
  | member
  | enumerator
  | subrange_type
  | other (display : String)
deriving DecidableEq

/-- Display form of a tag, as gimli formats it. -/
def DwTag.display : DwTag → String
  | .base_type => "DW_TAG_base_type"
  | .pointer_type => "DW_TAG_pointer_type"
  | .const_type => "DW_TAG_const_type"
  | .volatile_type => "DW_TAG_volatile_type"
  | .typedef => "DW_TAG_typedef"
  | .structure_type => "DW_TAG_structure_type"
  | .union_type => "DW_TAG_union_type"
  | .enumeration_type => "DW_TAG_enumeration_type"
  | .array_type => "DW_TAG_array_type"
  | .subroutine_type => "DW_TAG_subroutine_type"
  | .subprogram => "DW_TAG_subprogram"
  | .formal_parameter => "DW_TAG_formal_parameter"
  | .unspecified_parameters => "DW_TAG_unspecified_parameters"
  | .member => "DW_TAG_member"
  | .enumerator => "DW_TAG_enumerator"
  | .subrange_type => "DW_TAG_subrange_type"
  | .other s => s

/-- One DIE: unit-local offset, tag, decoded attributes, direct children. -/
inductive Die : Type where
  | mk (offset : Nat) (tag : DwTag) (name : Option String) (linkage_name : Option String)
      (type_ref : Option Nat) (spec_ref : Option Nat) (origin_ref : Option Nat)
      (declaration : Option Bool) (artificial : Bool) (byte_size : Option Nat)
      (data_member_location : Option Nat) (const_value : Option Int)
      (count_attr : Option Nat) (upper_bound : Option Nat) (children : List Die)

def Die.offset : Die → Nat
  | .mk o _ _ _ _ _ _ _ _ _ _ _ _ _ _ => o

def Die.tag : Die → DwTag
  | .mk _ t _ _ _ _ _ _ _ _ _ _ _ _ _ => t

def Die.name : Die → Option String
  | .mk _ _ n _ _ _ _ _ _ _ _ _ _ _ _ => n

def Die.linkage_name : Die → Option String
  | .mk _ _ _ l _ _ _ _ _ _ _ _ _ _ _ => l

def Die.type_ref : Die → Option Nat
  | .mk _ _ _ _ r _ _ _ _ _ _ _ _ _ _ => r

def Die.spec_ref : Die → Option Nat
  | .mk _ _ _ _ _ r _ _ _ _ _ _ _ _ _ => r

def Die.origin_ref : Die → Option Nat
  | .mk _ _ _ _ _ _ r _ _ _ _ _ _ _ _ => r

def Die.declaration : Die → Option Bool
  | .mk _ _ _ _ _ _ _ d _ _ _ _ _ _ _ => d

def Die.artificial : Die → Bool
  | .mk _ _ _ _ _ _ _ _ a _ _ _ _ _ _ => a

def Die.byte_size : Die → Option Nat
  | .mk _ _ _ _ _ _ _ _ _ b _ _ _ _ _ => b

def Die.data_member_location : Die → Option Nat
  | .mk _ _ _ _ _ _ _ _ _ _ d _ _ _ _ => d

def Die.const_value : Die → Option Int
  | .mk _ _ _ _ _ _ _ _ _ _ _ c _ _ _ => c

def Die.count_attr : Die → Option Nat
  | .mk _ _ _ _ _ _ _ _ _ _ _ _ c _ _ => c

def Die.upper_bound : Die → Option Nat
  | .mk _ _ _ _ _ _ _ _ _ _ _ _ _ u _ => u

def Die.children : Die → List Die
  | .mk _ _ _ _ _ _ _ _ _ _ _ _ _ _ c => c

/-- A compilation unit: its DIEs in DFS order. -/
structure DwarfUnit : Type where
  dies : List Die

/-- entries_at_offset followed by next_dfs: the DIE at a unit offset. -/
def findDie (u : DwarfUnit) (off : Nat) : Option Die :=
  u.dies.find? fun d => d.offset == off

/-- TypeResolver state (src/src/type_resolver.rs): the string cache and the
structured registry. -/
structure ResolverSt : Type where
  type_cache : List (Nat × String)
  type_registry : TypeRegistry
deriving DecidableEq

/-- TypeResolver::get_or_create_void_type. -/
def get_or_create_void_type (st : ResolverSt) : ResolverSt × TypeId :=
  match (st.type_registry.get_by_name "void").head? with
  | some void_type => (st, void_type.id)
  | none =>
    let r := st.type_registry.register_type
      ⟨TypeId0, .Primitive "void" 0 1, 0, false, false, none⟩
    ({ st with type_registry := r.2 }, r.1)

/-- TypeResolver::get_or_create_int_type. -/
def get_or_create_int_type (st : ResolverSt) : ResolverSt × TypeId :=
  match (st.type_registry.get_by_name "int").head? with
  | some int_type => (st, int_type.id)
  | none =>
    let r := st.type_registry.register_type
      ⟨TypeId0, .Primitive "int" 4 4, 0, false, false, none⟩
    ({ st with type_registry := r.2 }, r.1)

/-- TypeResolver::extract_primitive_type: name (errors propagate), byte
size defaulting to 0, alignment assumed equal to size. -/
def extract_primitive_type (entry : Die) : Option BaseTypeKind :=
  match entry.name with
  | none => none
  | some name =>
    let size := entry.byte_size.getD 0
    some (.Primitive name size size)

/-- The enumerator children of an enum DIE (TypeResolver::
extract_enum_variants loop): non-enumerator children are skipped; names
default to empty, values to 0. -/
def enum_variants_list (children : List Die) : List EnumVariant :=
  children.filterMap fun c =>
    if c.tag = .enumerator then some ⟨c.name.getD "", c.const_value.getD 0⟩ else none

/-- TypeResolver::extract_array_count loop over subrange children: the
first subrange with a count wins, else its upper bound plus one, else the
scan continues; no subrange at all means 0. -/
def array_count_from : List Die → Nat
  | [] => 0
  | c :: rest =>
    if c.tag = .subrange_type then
      match c.count_attr with
      | some n => n
      | none =>
        match c.upper_bound with
        | some upper => upper + 1
        | none => array_count_from rest
    else array_count_from rest

/-- TypeResolver::extract_enum_variants: tree anchored at the enum offset,
then the enumerator children. -/
def extract_enum_variants (u : DwarfUnit) (enum_offset : Nat) : Option (List EnumVariant) :=
  (findDie u enum_offset).map fun root => enum_variants_list root.children

/-- TypeResolver::extract_array_count: tree anchored at the array offset,
then the subrange children. -/
def extract_array_count (u : DwarfUnit) (array_offset : Nat) : Option Nat :=
  (findDie u array_offset).map fun root => array_count_from root.children

mutual

/-- TypeResolver::resolve_type (src/src/type_resolver.rs): cache hit, else
look up the DIE, resolve its string form, cache it, and build the
structured registry entry with the result and any failure discarded. -/
def resolve_type : Nat → DwarfUnit → ResolverSt → Nat → ResolverSt × Option String
  | 0, _, st, _ => (st, none)
  | fuel + 1, u, st, offset =>
    match alookup offset st.type_cache with
    | some cached => (st, some cached)
    | none =>
      match findDie u offset with
      | none => (st, none)
      | some entry =>
        match resolve_type_entry fuel u st entry with
        | (st1, none) => (st1, none)
        | (st1, some type_name) =>
          let st2 := { st1 with type_cache := ainsert offset type_name st1.type_cache }
          let st3 := (build_type_registry_entry fuel u st2 offset).1
          (st3, some type_name)

/-- TypeResolver::resolve_type_entry: dispatch on the DIE tag to the
string renderers. -/
def resolve_type_entry : Nat → DwarfUnit → ResolverSt → Die → ResolverSt × Option String
  | 0, _, st, _ => (st, none)
  | fuel + 1, u, st, entry =>
    match entry.tag with
    | .base_type => (st, entry.name)
    | .pointer_type =>
      match entry.type_ref with
      | some offset =>
        match resolve_type fuel u st offset with
        | (st1, none) => (st1, none)
        | (st1, some base) => (st1, some (base ++ "*"))
      | none => (st, some "void*")
    | .const_type =>
      match entry.type_ref with
      | some offset =>
        match resolve_type fuel u st offset with
        | (st1, none) => (st1, none)
        | (st1, some base) => (st1, some ("const " ++ base))
      | none => (st, some "const void")
    | .volatile_type =>
      match entry.type_ref with
      | some offset =>
        match resolve_type fuel u st offset with
        | (st1, none) => (st1, none)
        | (st1, some base) => (st1, some ("volatile " ++ base))
      | none => (st, some "volatile void")
    | .typedef =>
      match entry.name with
      | some n => (st, some n)
      | none =>
        match entry.type_ref with
        | some offset => resolve_type fuel u st offset
        | none => (st, some "void")
    | .structure_type =>
      match entry.name with
      | some n => (st, some ("struct " ++ n))
      | none => (st, some "struct <anonymous>")
    | .union_type =>
      match entry.name with
      | some n => (st, some ("union " ++ n))
      | none => (st, some "union <anonymous>")
    | .enumeration_type =>
      match entry.name with
      | some n => (st, some n)
      | none => (st, some "enum <anonymous>")
    | .array_type =>
      match entry.type_ref with
      | some offset =>
        match resolve_type fuel u st offset with
        | (st1, none) => (st1, none)
        | (st1, some base) => (st1, some (base ++ "*"))
      | none => (st, some "void*")
    | .subroutine_type => (st, some "void (*)(...)")
    | .unspecified_parameters => (st, some "...")
    | t => (st, some ("<unknown:" ++ t.display ++ ">"))

/-- TypeResolver::build_type_registry_entry: short-circuit through the
DWARF offset index, else extract the metadata and register the record with
a placeholder id and the offset as provenance. -/
def build_type_registry_entry : Nat → DwarfUnit → ResolverSt → Nat → ResolverSt × Option TypeId
  | 0, _, st, _ => (st, none)
  | fuel + 1, u, st, offset =>
    match st.type_registry.get_by_dwarf_offset offset with
    | some t => (st, some t.id)
    | none =>
      match findDie u offset with
      | none => (st, none)
      | some _entry =>
        match extract_type_metadata fuel u st offset 0 false false with
        | (st1, none) => (st1, none)
        | (st1, some (kind, pointer_depth, is_const, is_volatile)) =>
          let r := st1.type_registry.register_type
            ⟨TypeId0, kind, pointer_depth, is_const, is_volatile, some offset⟩
          ({ st1 with type_registry := r.2 }, some r.1)

/-- TypeResolver::extract_type_metadata (src/src/type_resolver.rs): the
qualifier unwinding loop.  Pointer DIEs bump the depth, const and volatile
DIEs set their flag, each following its inner reference; a qualifier with
no inner reference materializes the void primitive with the accumulated
attributes; the first non-qualifier DIE supplies the base kind. -/
def extract_type_metadata : Nat → DwarfUnit → ResolverSt → Nat → Nat → Bool → Bool →
    ResolverSt × Option (BaseTypeKind × Nat × Bool × Bool)
  | 0, _, st, _, _, _, _ => (st, none)
  | fuel + 1, u, st, current_offset, pointer_depth, is_const, is_volatile =>
    match findDie u current_offset with
    | none => (st, none)
    | some entry =>
      match entry.tag with
      | .pointer_type =>
        match entry.type_ref with
        | some next_offset =>
          extract_type_metadata fuel u st next_offset (pointer_depth + 1) is_const is_volatile
        | none =>
          (st, some (.Primitive "void" 0 1, pointer_depth + 1, is_const, is_volatile))
      | .const_type =>
        match entry.type_ref with
        | some next_offset =>
          extract_type_metadata fuel u st next_offset pointer_depth true is_volatile
        | none => (st, some (.Primitive "void" 0 1, pointer_depth, true, is_volatile))
      | .volatile_type =>
        match entry.type_ref with
        | some next_offset =>
          extract_type_metadata fuel u st next_offset pointer_depth is_const true
        | none => (st, some (.Primitive "void" 0 1, pointer_depth, is_const, true))
      | .base_type =>
        (st, (extract_primitive_type entry).map fun kind =>
          (kind, pointer_depth, is_const, is_volatile))
      | .typedef =>
        match extract_typedef_type fuel u st entry with
        | (st1, k) =>
          (st1, k.map fun kind => (kind, pointer_depth, is_const, is_volatile))
      | .structure_type =>
        match extract_struct_type fuel u st entry current_offset with
        | (st1, k) =>
          (st1, k.map fun kind => (kind, pointer_depth, is_const, is_volatile))
      | .union_type =>
        match extract_union_type fuel u st entry current_offset with
        | (st1, k) =>
          (st1, k.map fun kind => (kind, pointer_depth, is_const, is_volatile))
      | .enumeration_type =>
        match extract_enum_type fuel u st entry current_offset with
        | (st1, k) =>
          (st1, k.map fun kind => (kind, pointer_depth, is_const, is_volatile))
      | .array_type =>
        match extract_array_type fuel u st entry current_offset with
        | (st1, k) =>
          (st1, k.map fun kind => (kind, pointer_depth, is_const, is_volatile))
      | t =>
        (st, some (.Primitive ("<unknown:" ++ t.display ++ ">") 0 1,
          pointer_depth, is_const, is_volatile))

/-- TypeResolver::extract_typedef_type: name (errors propagate) plus the
aliased type, defaulting to the canonical void. -/
def extract_typedef_type : Nat → DwarfUnit → ResolverSt → Die → ResolverSt × Option BaseTypeKind
  | 0, _, st, _ => (st, none)
  | fuel + 1, u, st, entry =>
    match entry.name with
    | none => (st, none)
    | some name =>
      match entry.type_ref with
      | some offset =>
        match build_type_registry_entry fuel u st offset with
        | (st1, none) => (st1, none)
        | (st1, some aliased_type_id) => (st1, some (.Typedef name aliased_type_id))
      | none =>
        match get_or_create_void_type st with
        | (st1, aliased_type_id) => (st1, some (.Typedef name aliased_type_id))

/-- TypeResolver::extract_struct_type: name defaulting to anonymous, size
defaulting to 0, opaque when size is 0 and a declaration attribute is
present, fields from the member children, alignment the maximum field size
or 1 when there is no field. -/
def extract_struct_type : Nat → DwarfUnit → ResolverSt → Die → Nat →
    ResolverSt × Option BaseTypeKind
  | 0, _, st, _, _ => (st, none)
  | fuel + 1, u, st, entry, offset =>
    let name := entry.name.getD "<anonymous>"
    let size := entry.byte_size.getD 0
    let is_opaque := decide (size = 0) && entry.declaration.isSome
    match extract_struct_fields fuel u st offset with
    | (st1, none) => (st1, none)
    | (st1, some fields) =>
      let alignment := ((fields.map fun f => f.size).max?).getD 1
      (st1, some (.Struct name fields size alignment is_opaque))

/-- TypeResolver::extract_struct_fields: tree anchored at the struct
offset, then the member children. -/
def extract_struct_fields : Nat → DwarfUnit → ResolverSt → Nat →
    ResolverSt × Option (List StructField)
  | 0, _, st, _ => (st, none)
  | fuel + 1, u, st, struct_offset =>
    match findDie u struct_offset with
    | none => (st, none)
    | some struct_node => struct_fields_loop fuel u st struct_node.children

/-- The member loop of extract_struct_fields: non-member children and
members without a type reference are skipped; the field size is read back
from the registered field type. -/
def struct_fields_loop : Nat → DwarfUnit → ResolverSt → List Die →
    ResolverSt × Option (List StructField)
  | 0, _, st, _ => (st, none)
  | _ + 1, _, st, [] => (st, some [])
  | fuel + 1, u, st, child :: rest =>
    if child.tag = .member then
      match child.type_ref with
      | none => struct_fields_loop fuel u st rest
      | some offset =>
        match build_type_registry_entry fuel u st offset with
        | (st1, none) => (st1, none)
        | (st1, some type_id) =>
          let name := child.name.getD ""
          let field_offset := child.data_member_location.getD 0
          let size := match st1.type_registry.get_type type_id with
            | some ft =>
              match ft.kind with
              | .Primitive _ s _ => s
              | .Struct _ _ s _ _ => s
              | .Array _ _ s => s
              | _ => 0
            | none => 0
          match struct_fields_loop fuel u st1 rest with
          | (st2, none) => (st2, none)
          | (st2, some fields) => (st2, some (⟨name, type_id, field_offset, size⟩ :: fields))
    else struct_fields_loop fuel u st rest

/-- TypeResolver::extract_union_type: name defaulting to anonymous, size
defaulting to 0, variants from the member children, alignment the maximum
primitive or struct alignment among the variant types, defaulting to 1. -/
def extract_union_type : Nat → DwarfUnit → ResolverSt → Die → Nat →
    ResolverSt × Option BaseTypeKind
  | 0, _, st, _, _ => (st, none)
  | fuel + 1, u, st, entry, offset =>
    let name := entry.name.getD "<anonymous>"
    let size := entry.byte_size.getD 0
    match extract_union_fields fuel u st offset with
    | (st1, none) => (st1, none)
    | (st1, some variants) =>
      let alignment := ((variants.filterMap fun v =>
        match st1.type_registry.get_type v.type_id with
        | some t =>
          match t.kind with
          | .Primitive _ _ a => some a
          | .Struct _ _ _ a _ => some a
          | _ => none
        | none => none).max?).getD 1
      (st1, some (.Union name variants size alignment))

/-- TypeResolver::extract_union_fields: tree anchored at the union offset,
then the member children. -/
def extract_union_fields : Nat → DwarfUnit → ResolverSt → Nat →
    ResolverSt × Option (List UnionField)
  | 0, _, st, _ => (st, none)
  | fuel + 1, u, st, union_offset =>
    match findDie u union_offset with
    | none => (st, none)
    | some union_node => union_fields_loop fuel u st union_node.children

/-- The member loop of extract_union_fields. -/
def union_fields_loop : Nat → DwarfUnit → ResolverSt → List Die →
    ResolverSt × Option (List UnionField)
  | 0, _, st, _ => (st, none)
  | _ + 1, _, st, [] => (st, some [])
  | fuel + 1, u, st, child :: rest =>
    if child.tag = .member then
      match child.type_ref with
      | none => union_fields_loop fuel u st rest
      | some offset =>
        match build_type_registry_entry fuel u st offset with
        | (st1, none) => (st1, none)
        | (st1, some type_id) =>
          let name := child.name.getD ""
          match union_fields_loop fuel u st1 rest with
          | (st2, none) => (st2, none)
          | (st2, some variants) => (st2, some (⟨name, type_id⟩ :: variants))
    else union_fields_loop fuel u st rest

/-- TypeResolver::extract_enum_type: name defaulting to anonymous, size
defaulting to 4, backing type from the reference or the canonical int,
variants from the enumerator children. -/
def extract_enum_type : Nat → DwarfUnit → ResolverSt → Die → Nat →
    ResolverSt × Option BaseTypeKind
  | 0, _, st, _, _ => (st, none)
  | fuel + 1, u, st, entry, offset =>
    let name := entry.name.getD "<anonymous>"
    let size := entry.byte_size.getD 4
    match (match entry.type_ref with
      | some type_offset =>
        match build_type_registry_entry fuel u st type_offset with
        | (st1, none) => (st1, none)
        | (st1, some backing_id) => (st1, some backing_id)
      | none =>
        match get_or_create_int_type st with
        | (st1, backing_id) => (st1, some backing_id)) with
    | (st1, none) => (st1, none)
    | (st1, some backing_id) =>
      match extract_enum_variants u offset with
      | none => (st1, none)
      | some variants => (st1, some (.Enum name backing_id variants size))

/-- TypeResolver::extract_array_type: element type from the reference
(errors propagate, a missing reference is an error), count from the
subrange children, total size the element size times the count. -/
def extract_array_type : Nat → DwarfUnit → ResolverSt → Die → Nat →
    ResolverSt × Option BaseTypeKind
  | 0, _, st, _, _ => (st, none)
  | fuel + 1, u, st, entry, offset =>
    match entry.type_ref with
    | none => (st, none)
    | some type_offset =>
      match build_type_registry_entry fuel u st type_offset with
      | (st1, none) => (st1, none)
      | (st1, some element_type_id) =>
        match extract_array_count u offset with
        | none => (st1, none)
        | some count =>
          match st1.type_registry.get_type element_type_id with
          | none => (st1, none)
          | some element_type =>
            let element_size := match element_type.kind with
              | .Primitive _ s _ => s
              | .Struct _ _ s _ _ => s
              | .Array _ _ s => s
              | _ => 0
            (st1, some (.Array element_type_id count (element_size * count)))

end

/-! DwarfAnalyzer (src/src/dwarf_analyzer.rs). -/

/-- DwarfAnalyzer::read_entry_name: the linkage name first, then the
regular name. -/
def read_entry_name (entry : Die) : Option String :=
  match entry.linkage_name with
  | some name => some name
  | none => entry.name

/-- DwarfAnalyzer::resolve_name_reference: follow a unit reference and read
the name of the referenced DIE. -/
def resolve_name_reference (u : DwarfUnit) (attr : Option Nat) : Option String :=
  match attr with
  | none => none
  | some name_entry_offset =>
    match findDie u name_entry_offset with
    | none => none
    | some referenced => read_entry_name referenced

/-- DwarfAnalyzer::get_function_name: skip artificial subprograms; name
from the DIE, else through specification, else through abstract_origin. -/
def get_function_name (u : DwarfUnit) (entry : Die) : Option String :=
  if entry.artificial then none
  else
    match read_entry_name entry with
    | some name => some name
    | none =>
      match resolve_name_reference u entry.spec_ref with
      | some name => some name
      | none => resolve_name_reference u entry.origin_ref

/-- The child loop of DwarfAnalyzer::extract_parameters: formal parameters
contribute name and resolved type (a missing type reference means void, a
resolution error aborts), unspecified_parameters flips the variadic flag,
other tags are ignored. -/
def params_loop : Nat → DwarfUnit → ResolverSt → List Die →
    ResolverSt × Option (List Parameter × Bool)
  | 0, _, st, _ => (st, none)
  | _ + 1, _, st, [] => (st, some ([], false))
  | fuel + 1, u, st, child :: rest =>
    match child.tag with
    | .formal_parameter =>
      let param_name := child.name.getD ""
      match (match child.type_ref with
        | some offset => resolve_type fuel u st offset
        | none => (st, some "void")) with
      | (st1, none) => (st1, none)
      | (st1, some param_type) =>
        match params_loop fuel u st1 rest with
        | (st2, none) => (st2, none)
        | (st2, some (parameters, is_variadic)) =>
          (st2, some (⟨param_name, param_type⟩ :: parameters, is_variadic))
    | .unspecified_parameters =>
      match params_loop fuel u st rest with
      | (st2, none) => (st2, none)
      | (st2, some (parameters, _)) => (st2, some (parameters, true))
    | _ => params_loop fuel u st rest

/-- DwarfAnalyzer::extract_parameters: tree anchored at the function DIE,
then its direct children. -/
def extract_parameters (fuel : Nat) (u : DwarfUnit) (st : ResolverSt) (func_offset : Nat) :
    ResolverSt × Option (List Parameter × Bool) :=
  match findDie u func_offset with
  | none => (st, none)
  | some func_node => params_loop fuel u st func_node.children

/-- The DFS loop of DwarfAnalyzer::extract_functions_from_unit: for each
subprogram DIE, resolve the name (skipping the DIE when none is found),
apply export filtering, resolve the return type (void when the type
attribute is absent) and the parameters, and emit the signature.  Errors
from the resolver abort the unit. -/
def functions_loop : Nat → DwarfUnit → Option (List String) → ResolverSt → List Die →
    ResolverSt × Option (List FunctionSignature)
  | 0, _, _, st, _ => (st, none)
  | _ + 1, _, _, st, [] => (st, some [])
  | fuel + 1, u, exported_symbols, st, entry :: rest =>
    if entry.tag = .subprogram then
      match get_function_name u entry with
      | none => functions_loop fuel u exported_symbols st rest
      | some name =>
        let is_exported := match exported_symbols with
          | some symbols => symbols.contains name || symbols.contains ("_" ++ name)
          | none => true
        if exported_symbols.isSome && !is_exported then
          functions_loop fuel u exported_symbols st rest
        else
          match (match entry.type_ref with
            | some offset => resolve_type fuel u st offset
            | none => (st, some "void")) with
          | (st1, none) => (st1, none)
          | (st1, some return_type) =>
            match extract_parameters fuel u st1 entry.offset with
            | (st2, none) => (st2, none)
            | (st2, some (parameters, is_variadic)) =>
              match functions_loop fuel u exported_symbols st2 rest with
              | (st3, none) => (st3, none)
              | (st3, some signatures) =>
                (st3, some (⟨name, return_type, parameters, is_variadic, is_exported⟩ ::
                  signatures))
    else functions_loop fuel u exported_symbols st rest

/-- DwarfAnalyzer::extract_functions_from_unit: a fresh resolver for the
unit, then the DFS walk over its DIEs. -/
def extract_functions_from_unit (fuel : Nat) (u : DwarfUnit)
    (exported_symbols : Option (List String)) :
    ResolverSt × Option (List FunctionSignature) :=
  functions_loop fuel u exported_symbols ⟨[], TypeRegistry.new⟩ u.dies

/-! Fixtures for the analyzer and resolver claims. -/

/-- The empty resolver state a fresh unit starts from. -/
def st0 : ResolverSt := ⟨[], TypeRegistry.new⟩

/-- A named subprogram DIE whose declaration flag is set to true. -/
def declDie : Die :=
  .mk 10 .subprogram (some "fdecl") none none none none (some true) false none none none
    none none []

/-- A unit holding only the declaration-flagged subprogram. -/
def c7Unit : DwarfUnit := ⟨[declDie]⟩

/-- C7: the extractor in src/src/dwarf_analyzer.rs never reads the
declaration flag, so a subprogram DIE with declaration set to true still
yields a signature, against the definition filtering policy of the spec. -/
theorem C7_definition_filtering_code_divergence :
    declDie.tag = .subprogram ∧ declDie.declaration = some true ∧
    (extract_functions_from_unit 5 c7Unit none).2 =
      some [⟨"fdecl", "void", [], false, true⟩] := by decide

/-- A formal parameter whose type reference points at offset 999, where no
DIE exists. -/
def c8ParamDie : Die :=
  .mk 20 .formal_parameter (some "a") none (some 999) none none none false none none none
    none none []

/-- A subprogram whose single parameter carries the dangling reference. -/
def c8BadFunc : Die :=
  .mk 10 .subprogram (some "f1") none none none none none false none none none none none
    [c8ParamDie]

/-- A healthy second subprogram in the same unit. -/
def c8GoodFunc : Die :=
  .mk 30 .subprogram (some "f2") none none none none none false none none none none none []

/-- The unit with the malformed parameter followed by the healthy
function. -/
def c8Unit : DwarfUnit := ⟨[c8BadFunc, c8ParamDie, c8GoodFunc]⟩

/-- An unnamed subprogram DIE. -/
def c8Unnamed : Die :=
  .mk 40 .subprogram none none none none none none false none none none none none []

/-- C8: a single parameter whose type reference yields no entry aborts the
whole unit: the healthy function f2 is not extracted, against the claim
that remaining functions are still extracted. -/
theorem C8_fault_isolation_counterexample :
    (extract_functions_from_unit 9 c8Unit none).2 = none := by decide

/-- C8 (amended): a parameter type reference that yields no entry makes
the resolver error propagate and abort the unit (the state is handed back
untouched and no signature list is produced), whereas a subprogram with no
discoverable name is merely skipped and the walk continues with the
remaining DIEs. -/
theorem C8_fault_isolation :
    (∀ (u : DwarfUnit) (st : ResolverSt) (fuel : Nat) (rest : List Die),
      findDie u 10 = some c8BadFunc → findDie u 999 = none →
      alookup 999 st.type_cache = none →
      functions_loop (fuel + 4) u none st (c8BadFunc :: rest) = (st, none)) ∧
    (∀ (u : DwarfUnit) (exported_symbols : Option (List String)) (st : ResolverSt)
        (fuel : Nat) (d : Die) (rest : List Die),
      d.tag = .subprogram → get_function_name u d = none →
      functions_loop (fuel + 1) u exported_symbols st (d :: rest) =
        functions_loop fuel u exported_symbols st rest) := by
  constructor
  · intro u st fuel rest h10 h999 hcache
    have hres : resolve_type (fuel + 2) u st 999 = (st, none) := by
      show resolve_type (fuel + 1 + 1) u st 999 = (st, none)
      rw [resolve_type, hcache, h999]
    have hpar : extract_parameters (fuel + 3) u st 10 = (st, none) := by
      rw [extract_parameters, h10]
      show params_loop (fuel + 2 + 1) u st c8BadFunc.children = (st, none)
      rw [show c8BadFunc.children = [c8ParamDie] from rfl, params_loop]
      simp [c8ParamDie, Die.tag, Die.type_ref, Die.name, hres]
    show functions_loop (fuel + 3 + 1) u none st (c8BadFunc :: rest) = (st, none)
    rw [functions_loop]
    simp [c8BadFunc, Die.tag, Die.type_ref, Die.offset, get_function_name, Die.artificial,
      read_entry_name, Die.linkage_name, Die.name, hpar]
  · intro u exported_symbols st fuel d rest htag hname
    rw [functions_loop]
    simp [htag, hname]

/-- C8 witness: the amended behaviour on the concrete unit: the unit with
the dangling parameter reference aborts from the fresh state, and the
unnamed subprogram is skipped. -/
theorem C8_fault_isolation_witness :
    functions_loop 4 c8Unit none st0 (c8BadFunc :: [c8ParamDie, c8GoodFunc]) = (st0, none) ∧
    functions_loop 3 c8Unit none st0 (c8Unnamed :: [c8GoodFunc]) =
      functions_loop 2 c8Unit none st0 [c8GoodFunc] :=
  ⟨C8_fault_isolation.1 c8Unit st0 0 [c8ParamDie, c8GoodFunc] rfl rfl rfl,
    C8_fault_isolation.2 c8Unit none st0 2 c8Unnamed [c8GoodFunc] rfl rfl⟩

/-! The qualifier chain view of extract_type_metadata, for C9. -/

/-- The tags the unwinding loop treats as qualifier layers. -/
def isQualTag : DwTag → Bool
  | .pointer_type => true
  | .const_type => true
  | .volatile_type => true
  | _ => false

/-- One step of a qualifier chain: the offset it sits at, its tag, and the
offset its type reference points to. -/
structure QualLink : Type where
  off : Nat
  tag : DwTag
  nxt : Nat
deriving DecidableEq

/-- The chain ls runs from start to fin in the unit: each link sits at its
offset, is a qualifier DIE with the stated tag, and references the next
offset. -/
def linksOk (u : DwarfUnit) : List QualLink → Nat → Nat → Bool
  | [], start, fin => start == fin
  | l :: rest, start, fin =>
    (l.off == start) &&
    (match findDie u start with
      | some d => (d.tag == l.tag) && isQualTag d.tag && (d.type_ref == some l.nxt)
      | none => false) &&
    linksOk u rest l.nxt fin

/-- Number of pointer layers in a chain. -/
def countPtr : List QualLink → Nat
  | [] => 0
  | l :: rest => (if l.tag = .pointer_type then 1 else 0) + countPtr rest

/-- Whether a const layer occurs in a chain. -/
def anyConst : List QualLink → Bool
  | [] => false
  | l :: rest => (l.tag == DwTag.const_type) || anyConst rest

/-- Whether a volatile layer occurs in a chain. -/
def anyVol : List QualLink → Bool
  | [] => false
  | l :: rest => (l.tag == DwTag.volatile_type) || anyVol rest

/-- The base-kind dispatch of the unwinding loop, factored out of
extract_type_metadata so that the loop can be related to it: what the loop
does at the first non-qualifier DIE. -/
def extract_base_kind (fuel : Nat) (u : DwarfUnit) (st : ResolverSt) (entry : Die)
    (offset : Nat) : ResolverSt × Option BaseTypeKind :=
  match entry.tag with
  | .base_type => (st, extract_primitive_type entry)
  | .typedef => extract_typedef_type fuel u st entry
  | .structure_type => extract_struct_type fuel u st entry offset
  | .union_type => extract_union_type fuel u st entry offset
  | .enumeration_type => extract_enum_type fuel u st entry offset
  | .array_type => extract_array_type fuel u st entry offset
  | t => (st, some (.Primitive ("<unknown:" ++ t.display ++ ">") 0 1))

theorem extract_metadata_chain (u : DwarfUnit) :
    ∀ (ls : List QualLink) (start fin : Nat) (st : ResolverSt) (pd : Nat) (ic iv : Bool)
      (fuel : Nat), linksOk u ls start fin = true →
      extract_type_metadata fuel u st start pd ic iv =
        extract_type_metadata (fuel - ls.length) u st fin (pd + countPtr ls)
          (ic || anyConst ls) (iv || anyVol ls) := by
  intro ls
  induction ls with
  | nil =>
    intro start fin st pd ic iv fuel h
    have hsf : start = fin := by simpa [linksOk] using h
    simp [hsf, countPtr, anyConst, anyVol]
  | cons l rest ih =>
    intro start fin st pd ic iv fuel h
    simp only [linksOk, Bool.and_eq_true] at h
    obtain ⟨⟨hoff, hdie⟩, hrest⟩ := h
    cases hfd : findDie u start with
    | none => rw [hfd] at hdie; exact absurd hdie (by simp)
    | some d =>
      rw [hfd] at hdie
      simp only [Bool.and_eq_true, beq_iff_eq] at hdie
      obtain ⟨⟨htag, _hq⟩, href⟩ := hdie
      cases fuel with
      | zero => simp [extract_type_metadata]
      | succ fuel =>
        cases hlt : l.tag with
        | pointer_type =>
          rw [hlt] at htag
          rw [show extract_type_metadata (fuel + 1) u st start pd ic iv =
              extract_type_metadata fuel u st l.nxt (pd + 1) ic iv from by
            rw [extract_type_metadata, hfd]
            simp only [htag, href]]
          rw [ih l.nxt fin st (pd + 1) ic iv fuel hrest]
          simp only [List.length_cons, Nat.succ_sub_succ, countPtr, anyConst, anyVol, hlt]
          have hpd : pd + 1 + countPtr rest = pd + (1 + countPtr rest) := by omega
          have hbc : (DwTag.pointer_type == DwTag.const_type) = false := by decide
          have hbv : (DwTag.pointer_type == DwTag.volatile_type) = false := by decide
          simp [hpd, hbc, hbv]
        | const_type =>
          rw [hlt] at htag
          rw [show extract_type_metadata (fuel + 1) u st start pd ic iv =
              extract_type_metadata fuel u st l.nxt pd true iv from by
            rw [extract_type_metadata, hfd]
            simp only [htag, href]]
          rw [ih l.nxt fin st pd true iv fuel hrest]
          have hbc : (DwTag.const_type == DwTag.const_type) = true := by decide
          have hbv : (DwTag.const_type == DwTag.volatile_type) = false := by decide
          simp [countPtr, anyConst, anyVol, hlt, hbc, hbv]
        | volatile_type =>
          rw [hlt] at htag
          rw [show extract_type_metadata (fuel + 1) u st start pd ic iv =
              extract_type_metadata fuel u st l.nxt pd ic true from by
            rw [extract_type_metadata, hfd]
            simp only [htag, href]]
          rw [ih l.nxt fin st pd ic true fuel hrest]
          have hbc : (DwTag.volatile_type == DwTag.const_type) = false := by decide
          have hbv : (DwTag.volatile_type == DwTag.volatile_type) = true := by decide
          simp [countPtr, anyConst, anyVol, hlt, hbc, hbv]
        | base_type => rw [htag, hlt] at _hq; simp [isQualTag] at _hq
        | typedef => rw [htag, hlt] at _hq; simp [isQualTag] at _hq
        | structure_type => rw [htag, hlt] at _hq; simp [isQualTag] at _hq
        | union_type => rw [htag, hlt] at _hq; simp [isQualTag] at _hq
        | enumeration_type => rw [htag, hlt] at _hq; simp [isQualTag] at _hq
        | array_type => rw [htag, hlt] at _hq; simp [isQualTag] at _hq
        | subroutine_type => rw [htag, hlt] at _hq; simp [isQualTag] at _hq
        | subprogram => rw [htag, hlt] at _hq; simp [isQualTag] at _hq
        | formal_parameter => rw [htag, hlt] at _hq; simp [isQualTag] at _hq
        | unspecified_parameters => rw [htag, hlt] at _hq; simp [isQualTag] at _hq
        | member => rw [htag, hlt] at _hq; simp [isQualTag] at _hq
        | enumerator => rw [htag, hlt] at _hq; simp [isQualTag] at _hq
        | subrange_type => rw [htag, hlt] at _hq; simp [isQualTag] at _hq
        | other s => rw [htag, hlt] at _hq; simp [isQualTag] at _hq

theorem extract_metadata_base (u : DwarfUnit) (fin : Nat) (d : Die) (fuel : Nat)
    (st : ResolverSt) (pd : Nat) (ic iv : Bool)
    (hfd : findDie u fin = some d) (hq : isQualTag d.tag = false) :
    extract_type_metadata (fuel + 1) u st fin pd ic iv =
      ((extract_base_kind fuel u st d fin).1,
        (extract_base_kind fuel u st d fin).2.map fun kind => (kind, pd, ic, iv)) := by
  rw [extract_type_metadata, hfd]
  cases htag : d.tag with
  | pointer_type => rw [htag] at hq; simp [isQualTag] at hq
  | const_type => rw [htag] at hq; simp [isQualTag] at hq
  | volatile_type => rw [htag] at hq; simp [isQualTag] at hq
  | base_type => simp [extract_base_kind, htag]
  | typedef =>
    rcases he : extract_typedef_type fuel u st d with ⟨st1, k⟩
    simp [extract_base_kind, htag, he]
  | structure_type =>
    rcases he : extract_struct_type fuel u st d fin with ⟨st1, k⟩
    simp [extract_base_kind, htag, he]
  | union_type =>
    rcases he : extract_union_type fuel u st d fin with ⟨st1, k⟩
    simp [extract_base_kind, htag, he]
  | enumeration_type =>
    rcases he : extract_enum_type fuel u st d fin with ⟨st1, k⟩
    simp [extract_base_kind, htag, he]
  | array_type =>
    rcases he : extract_array_type fuel u st d fin with ⟨st1, k⟩
    simp [extract_base_kind, htag, he]
  | subroutine_type => simp [extract_base_kind, htag]
  | subprogram => simp [extract_base_kind, htag]
  | formal_parameter => simp [extract_base_kind, htag]
  | unspecified_parameters => simp [extract_base_kind, htag]
  | member => simp [extract_base_kind, htag]
  | enumerator => simp [extract_base_kind, htag]
  | subrange_type => simp [extract_base_kind, htag]
  | other s => simp [extract_base_kind, htag]

theorem extract_metadata_void (u : DwarfUnit) (fin : Nat) (d : Die) (fuel : Nat)
    (st : ResolverSt) (pd : Nat) (ic iv : Bool)
    (hfd : findDie u fin = some d) (href : d.type_ref = none) :
    (d.tag = .pointer_type →
      extract_type_metadata (fuel + 1) u st fin pd ic iv =
        (st, some (.Primitive "void" 0 1, pd + 1, ic, iv))) ∧
    (d.tag = .const_type →
      extract_type_metadata (fuel + 1) u st fin pd ic iv =
        (st, some (.Primitive "void" 0 1, pd, true, iv))) ∧
    (d.tag = .volatile_type →
      extract_type_metadata (fuel + 1) u st fin pd ic iv =
        (st, some (.Primitive "void" 0 1, pd, ic, true))) := by
  refine ⟨?_, ?_, ?_⟩ <;> intro htag <;> rw [extract_type_metadata, hfd] <;>
    simp only [htag, href]

/-- C9: over any finite qualifier chain, extract_type_metadata adds one
pointer depth per pointer DIE and sets the const and volatile flags exactly
when such DIEs occur, then takes the base kind from the first non-qualifier
DIE reached; and a qualifier DIE with no inner reference terminates the
chain with the primitive named void of size 0 carrying the accumulated
attributes. -/
theorem C9_qualifier_unwinding :
    (∀ (u : DwarfUnit) (ls : List QualLink) (start fin : Nat) (st : ResolverSt)
        (pd : Nat) (ic iv : Bool) (fuel : Nat), linksOk u ls start fin = true →
      extract_type_metadata fuel u st start pd ic iv =
        extract_type_metadata (fuel - ls.length) u st fin (pd + countPtr ls)
          (ic || anyConst ls) (iv || anyVol ls)) ∧
    (∀ (u : DwarfUnit) (fin : Nat) (d : Die) (fuel : Nat) (st : ResolverSt) (pd : Nat)
        (ic iv : Bool), findDie u fin = some d → isQualTag d.tag = false →
      extract_type_metadata (fuel + 1) u st fin pd ic iv =
        ((extract_base_kind fuel u st d fin).1,
          (extract_base_kind fuel u st d fin).2.map fun kind => (kind, pd, ic, iv))) ∧
    (∀ (u : DwarfUnit) (fin : Nat) (d : Die) (fuel : Nat) (st : ResolverSt) (pd : Nat)
        (ic iv : Bool), findDie u fin = some d → d.type_ref = none →
      (d.tag = .pointer_type →
        extract_type_metadata (fuel + 1) u st fin pd ic iv =
          (st, some (.Primitive "void" 0 1, pd + 1, ic, iv))) ∧
      (d.tag = .const_type →
        extract_type_metadata (fuel + 1) u st fin pd ic iv =
          (st, some (.Primitive "void" 0 1, pd, true, iv))) ∧
      (d.tag = .volatile_type →
        extract_type_metadata (fuel + 1) u st fin pd ic iv =
          (st, some (.Primitive "void" 0 1, pd, ic, true)))) :=
  ⟨fun u ls start fin st pd ic iv fuel h =>
      extract_metadata_chain u ls start fin st pd ic iv fuel h,
    fun u fin d fuel st pd ic iv hfd hq =>
      extract_metadata_base u fin d fuel st pd ic iv hfd hq,
    fun u fin d fuel st pd ic iv hfd href =>
      extract_metadata_void u fin d fuel st pd ic iv hfd href⟩

/-- A pointer DIE referencing offset 2. -/
def qd1 : Die := .mk 1 .pointer_type none none (some 2) none none none false none none none
  none none []

/-- A const DIE referencing offset 3. -/
def qd2 : Die := .mk 2 .const_type none none (some 3) none none none false none none none
  none none []

/-- The int base DIE at offset 3. -/
def qd3 : Die := .mk 3 .base_type (some "int") none none none none none false (some 4) none
  none none none []

/-- A pointer DIE with no inner reference at offset 4. -/
def qd4 : Die := .mk 4 .pointer_type none none none none none none false none none none
  none none []

/-- A unit holding the chain pointer, const, int, and the bare pointer. -/
def c9Unit : DwarfUnit := ⟨[qd1, qd2, qd3, qd4]⟩

/-- C9 witness: walking the two-link chain from offset 1 lands on the int
base with depth 1 and the const flag; the base dispatch applies at offset
3; and the bare pointer at offset 4 materializes void with one more
pointer level. -/
theorem C9_qualifier_unwinding_witness :
    extract_type_metadata 7 c9Unit st0 1 0 false false =
      extract_type_metadata 5 c9Unit st0 3 1 true false ∧
    extract_type_metadata 5 c9Unit st0 3 1 true false =
      ((extract_base_kind 4 c9Unit st0 qd3 3).1,
        (extract_base_kind 4 c9Unit st0 qd3 3).2.map fun kind => (kind, 1, true, false)) ∧
    extract_type_metadata 3 c9Unit st0 4 2 false true =
      (st0, some (.Primitive "void" 0 1, 3, false, true)) :=
  ⟨C9_qualifier_unwinding.1 c9Unit
      [⟨1, .pointer_type, 2⟩, ⟨2, .const_type, 3⟩] 1 3 st0 0 false false 7 (by decide),
    C9_qualifier_unwinding.2.1 c9Unit 3 qd3 4 st0 1 true false rfl (by decide),
    (C9_qualifier_unwinding.2.2 c9Unit 4 qd4 2 st0 2 false true rfl rfl).1 rfl⟩

end Dwarffi
